import Mathlib

/-!
Verification of `ml3d/torch/pipelines/semantic_segmentation_multi_head.py`.

The development shallowly embeds the two algorithmic cores of the file:

* `CustomDistributedSampler` (`__init__` building the partitioned index
  table `indices_batched`, and `__iter__` performing the per-epoch
  permute / pad / shard / flatten pipeline), and
* the streaming aggregation step `SemanticSegmentationMultiHead.update_tests`,
  together with the training-loop batch step of `run_train`, the
  distributed-sampler guard of `run_train`, and the early return of
  `run_inference`.

Machine integers are modelled as `Nat`/`Int` (no overflow is relevant at the
sizes involved); possibility/probability values, which are only ever compared
against the constant threshold `0.5` and otherwise passed through opaque model
callbacks, are modelled as `Rat`; fallible operations (Python `IndexError`,
`assert`, `raise`) are modelled with `Option`/`Except`.
-/

namespace MultiHead

/-- Structural worker for `everyNth`; `fuel` bounds the recursion depth and
is adequate whenever `l.length ≤ fuel`, since each step consumes at least one
element. -/
def everyNthAux (step : Nat) : Nat → List α → List α
  | _, [] => []
  | 0, _ :: _ => []
  | fuel + 1, x :: xs => x :: everyNthAux step fuel (xs.drop (step - 1))

/-- Python extended slice `l[::step]` for `step ≥ 1`: every `step`-th
element of `l` starting at position `0`. -/
def everyNth (step : Nat) (l : List α) : List α :=
  everyNthAux step l.length l

/-- Python `l[start::step]`. -/
def strideFrom (l : List α) (start step : Nat) : List α :=
  everyNth step (l.drop start)

/-- `numpy.reshape(-1, B)` of a flat list whose length is a multiple of `B`:
the `r`-th row is elements `r*B, …, r*B + B - 1`.  (numpy raises if `B` does
not divide the length; at every use site below divisibility holds.) -/
def reshapeRows (B : Nat) (l : List Nat) : List (List Nat) :=
  (List.range (l.length / B)).map (fun r => (l.drop (r * B)).take B)

/-- `CustomDistributedSampler.__init__`, line `drop_count = (len(indices) //
num_heads) % batch_size`. -/
def drop_count (N H B : Nat) : Nat := (N / H) % B

/-- `CustomDistributedSampler.__init__`: `indices = list(range(len(dataset)))`
truncated by `indices[:-drop_count * num_heads]` when `drop_count` is
nonzero.  (When `drop_count = 0` the Python code skips the slice; `take N`
is then the whole list, so the unconditional form below agrees.) -/
def droppedIndices (N H B : Nat) : List Nat :=
  (List.range N).take (N - drop_count N H B * H)

/-- `CustomDistributedSampler.__init__`: the partitioned index table
`self.indices_batched = np.concatenate([np.array(indices[i::num_heads])
.reshape(-1, batch_size) for i in range(num_heads)], axis=0)`,
as a list of rows. -/
def indices_batched (N H B : Nat) : List (List Nat) :=
  ((List.range H).map
    (fun h => reshapeRows B (strideFrom (droppedIndices N H B) h H))).flatten

/-- `self.num_samples = math.ceil(self.indices_batched.shape[0] /
self.num_replicas) * batch_size` (`rows` is the table's row count). -/
def num_samples (rows B R : Nat) : Nat := ((rows + R - 1) / R) * B

/-- `self.total_size = self.num_samples * self.num_replicas`. -/
def total_size (rows B R : Nat) : Nat := num_samples rows B R * R

/-- `CustomDistributedSampler.__iter__`, the padding step: if the row-order
list length is not divisible by `num_replicas`, append the wraparound prefix
`indices[:padding_size]` where
`padding_size = num_replicas - len(indices) % num_replicas`.
Note Python's `indices[:padding_size]` silently yields fewer than
`padding_size` elements when the list is shorter than `padding_size`. -/
def padRowOrder (rowOrder : List Nat) (R : Nat) : List Nat :=
  if rowOrder.length % R ≠ 0 then
    rowOrder ++ rowOrder.take (R - rowOrder.length % R)
  else
    rowOrder

/-- `CustomDistributedSampler.__iter__` after padding: subsample
`indices[self.rank::self.num_replicas]`, gather the table rows
`self.indices_batched[indices]` and flatten.  `rowOrder` is the (possibly
seed-permuted) row-order list computed at the top of `__iter__`. -/
def iterFlat (table : List (List Nat)) (rowOrder : List Nat) (R rank : Nat) :
    List Nat :=
  (((strideFrom (padRowOrder rowOrder R) rank R)).map
    (fun i => table.getD i [])).flatten

/-- `CustomDistributedSampler.__iter__` with both of its `assert` statements:
`assert len(indices) * self.batch_size == self.total_size` after padding, and
`assert len(indices) == self.num_samples` after flattening.  A failing
assertion is modelled as `none`. -/
def iterChecked (N H B R rank : Nat) (rowOrder : List Nat) :
    Option (List Nat) :=
  let table := indices_batched N H B
  let padded := padRowOrder rowOrder R
  if padded.length * B ≠ total_size table.length B R then none
  else
    let out := ((strideFrom padded rank R).map (fun i => table.getD i [])).flatten
    if out.length ≠ num_samples table.length B R then none
    else some out

/-! ### Streaming spatial aggregator: `SemanticSegmentationMultiHead.update_tests`

Per-point probability rows are `List Rat`, labels are `Int` (the source uses
`float16` / `int16` numpy buffers; no arithmetic is performed on them inside
`update_tests`, only allocation, writing through `model.update_probs`, and
fancy indexing).  The external collaborators `model.update_probs` and the
`proj_inds` entry produced by `model.preprocess` are parameters. -/

/-- The aggregation state of the pipeline object that `update_tests` reads
and writes (`curr_cloud_id`, `test_probs`, `test_labels`, `ori_test_probs`,
`ori_test_labels`, `complete_infer`); `run_test_1` resets it to
`curr_cloud_id = -1` with empty buffers. -/
structure AggState where
  curr_cloud_id : Int
  test_probs : List (List (List Rat))
  test_labels : List (List Int)
  ori_test_probs : List (List (List Rat))
  ori_test_labels : List (List Int)
  complete_infer : Bool
deriving DecidableEq, Repr

/-- The reset performed at the top of `run_test_1` / `run_inference`. -/
def initAggState : AggState :=
  { curr_cloud_id := -1
    test_probs := []
    test_labels := []
    ori_test_probs := []
    ori_test_labels := []
    complete_infer := false }

/-- `end_threshold = 0.5` in `update_tests`. -/
def end_threshold : Rat := mkRat 1 2

/-- `this_possiblility[this_possiblility > end_threshold].shape[0]`: the
number of entries of `l` strictly above `t`. -/
def countExceeding (l : List Rat) (t : Rat) : Nat :=
  (l.filter (fun x => t < x)).length

/-- numpy fancy indexing `l[inds]`: `none` models the `IndexError` raised on
an out-of-range index. -/
def gatherIdx (l : List α) : List Nat → Option (List α)
  | [] => some []
  | i :: is =>
    match l[i]? with
    | none => none
    | some x =>
      match gatherIdx l is with
      | none => none
      | some xs => some (x :: xs)

/-- `update_tests`, lines 392-404: `if self.curr_cloud_id !=
sampler.cloud_id:` switch to the new cloud and append fresh zero
probability/label buffers sized to its point count. -/
def allocIfNew (numClasses : Nat) (cloudId : Nat) (poss : List Rat)
    (s : AggState) : AggState :=
  if s.curr_cloud_id = (cloudId : Int) then s
  else
    { s with
      curr_cloud_id := (cloudId : Int)
      test_probs := s.test_probs ++
        [List.replicate poss.length (List.replicate numClasses 0)]
      test_labels := s.test_labels ++ [List.replicate poss.length 0]
      complete_infer := false }

/-- `update_tests`, lines 412-415:
`self.test_probs[self.curr_cloud_id], self.test_labels[self.curr_cloud_id] =
self.model.update_probs(inputs, results, self.test_probs[...],
self.test_labels[...])`.  Indexing is by the raw incoming cloud id (equal to
`curr_cloud_id` after `allocIfNew`); an out-of-range id raises
(`none`).  Returns the written state together with the pair produced by
`update_probs`, which the completion step reads back. -/
def writeBuffers (upd : List (List Rat) → List Int → List (List Rat) × List Int)
    (cloudId : Nat) (s1 : AggState) :
    Option (AggState × (List (List Rat) × List Int)) :=
  match s1.test_probs[cloudId]?, s1.test_labels[cloudId]? with
  | some probs, some labels =>
    let pr := upd probs labels
    some ({ s1 with
      test_probs := s1.test_probs.set cloudId pr.1
      test_labels := s1.test_labels.set cloudId pr.2 }, pr)
  | _, _ => none

/-- `update_tests`, lines 417-432: when the split is `test` and every entry
of the current possibility map exceeds `end_threshold`, resolve `proj_inds`
(defaulting to `np.arange(self.test_probs[self.curr_cloud_id].shape[0])`),
gather the accumulated buffers through it into the original-order output
lists, and set `self.complete_infer = True`. -/
def completeIfCovered (projInds : Option (List Nat)) (split : String)
    (poss : List Rat) (spr : AggState × (List (List Rat) × List Int)) :
    Option AggState :=
  if split = ("test" : String) ∧
      countExceeding poss end_threshold = poss.length then
    match gatherIdx spr.2.1 (projInds.getD (List.range spr.2.1.length)),
      gatherIdx spr.2.2 (projInds.getD (List.range spr.2.1.length)) with
    | some oriP, some oriL =>
      some { spr.1 with
        ori_test_probs := spr.1.ori_test_probs ++ [oriP]
        ori_test_labels := spr.1.ori_test_labels ++ [oriL]
        complete_infer := true }
    | _, _ => none
  else some spr.1

/-- `SemanticSegmentationMultiHead.update_tests` (lines 388-432), the
composition of the three phases above.

Arguments mirror what the source reads: `numClasses` is
`self.model.cfg.num_classes`; `upd` is the external
`self.model.update_probs(inputs, results, probs, labels)` with the batch
fixed; `projInds` is `model.preprocess(...).get('proj_inds', None)`;
`split` is `sampler.split`; `cloudId` is `sampler.cloud_id`; `possibilities`
is `sampler.possibilities`.  The progress-bar bookkeeping (`self.pbar`,
`self.pbar_update`) is pure UI and is omitted.  `none` models a raised
`IndexError` (missing possibility array, out-of-range buffer index, or
out-of-range `proj_inds`). -/
def update_tests (numClasses : Nat)
    (upd : List (List Rat) → List Int → List (List Rat) × List Int)
    (projInds : Option (List Nat)) (split : String) (cloudId : Nat)
    (possibilities : List (List Rat)) (s : AggState) : Option AggState :=
  match possibilities[cloudId]? with
  | none => none
  | some poss =>
    (writeBuffers upd cloudId (allocIfNew numClasses cloudId poss s)).bind
      (completeIfCovered projInds split poss)

/-! ### Training loop batch step: `SemanticSegmentationMultiHead.run_train`

The per-batch body of the training loop (lines 575-614).  Gradient, metric
and loss side effects are tracked as event counters / lists; the model
forward pass and loss computation are summarised by the `TrainBatch` data
the body actually branches on. -/

/-- What one training batch contributes to the loop body: the head index
`inputs['data'].dataset_idx`, the size of the last dimension of the
`predict_scores` tensor returned by `model.get_loss`, and the scalar loss
value. -/
structure TrainBatch where
  dataset_idx : Nat
  scoresLastDim : Nat
  lossVal : Rat
deriving DecidableEq, Repr

/-- Observable effects of the training loop on the pipeline state. -/
structure TrainLoopState where
  zeroGradCount : Nat
  forwardCount : Nat
  backwardCount : Nat
  clipCount : Nat
  optimStepCount : Nat
  metricUpdateCount : List Nat
  losses : List (List Rat)
deriving DecidableEq, Repr

/-- Bump the entry of `l` at position `i` with `f` (Python `l[i] += …` /
`l[i].append(…)` on an in-range index). -/
def modifyAt (l : List α) (i : Nat) (f : α → α) : List α :=
  match l[i]? with
  | none => l
  | some x => l.set i (f x)

/-- One iteration of the training loop body (`for inputs in progress_bar:`),
lines 575-614: zero gradients, forward pass, `get_loss`, then — unless the
`predict_scores.size()[-1] == 0` guard fires `continue` — backward, optional
gradient clipping, optimizer step, per-head metric update and loss append.
`gradClip` is `model.cfg.get('grad_clip_norm', -1) > 0`. -/
def trainBatchStep (gradClip : Bool) (st : TrainLoopState) (b : TrainBatch) :
    TrainLoopState :=
  let st := { st with
    zeroGradCount := st.zeroGradCount + 1
    forwardCount := st.forwardCount + 1 }
  if b.scoresLastDim = 0 then st   -- `continue`
  else
    let st := { st with backwardCount := st.backwardCount + 1 }
    let st := if gradClip then { st with clipCount := st.clipCount + 1 } else st
    { st with
      optimStepCount := st.optimStepCount + 1
      metricUpdateCount := modifyAt st.metricUpdateCount b.dataset_idx (· + 1)
      losses := modifyAt st.losses b.dataset_idx (fun l => l ++ [b.lossVal]) }

/-- The whole epoch's training loop over its batch sequence. -/
def runTrainEpoch (gradClip : Bool) (st : TrainLoopState)
    (batches : List TrainBatch) : TrainLoopState :=
  batches.foldl (trainBatchStep gradClip) st

/-! ### Distributed-sampler guard in `run_train` (lines 491-502)

`run_train` builds its data loaders right after the guard; building is
represented in the success value, so an error means no loader was built and
no batch was processed. -/

/-- Result of the sampler-selection phase of `run_train` when it does not
raise: which samplers the loaders are built with, and the fact that both
loaders were built. -/
structure SetupDone where
  trainSamplerCustom : Bool
  validSamplerCustom : Bool
  trainLoaderBuilt : Bool
  validLoaderBuilt : Bool
deriving DecidableEq, Repr

/-- Lines 491-525 of `run_train`: if `self.distributed`, first check that no
external sampler is set and raise `NotImplementedError` otherwise, then
construct `CustomDistributedSampler`s; finally build the train and
validation `DataLoader`s.  `tSamp` / `vSamp` are the values of the local
variables `train_sampler` / `valid_sampler` at the point of the check
(both are assigned `None` earlier in `run_train`, at lines 470 and 473). -/
def runTrainSetup (distributed : Bool) (tSamp vSamp : Option Unit) :
    Except String SetupDone :=
  if distributed then
    if tSamp ≠ none ∨ vSamp ≠ none then
      Except.error ("Distributed training with sampler is not supported yet!")
    else
      Except.ok
        { trainSamplerCustom := true
          validSamplerCustom := true
          trainLoaderBuilt := true
          validLoaderBuilt := true }
  else
    Except.ok
      { trainSamplerCustom := false
        validSamplerCustom := false
        trainLoaderBuilt := true
        validLoaderBuilt := true }

/-! ### `SemanticSegmentationMultiHead.run_inference` (lines 187-252)

The inference loop body executes `results = model(inputs['data'])` and then
`return results`; the `self.update_tests(...)` call written on the next line,
and the post-loop construction of the `{'predict_labels': …,
'predict_scores': …}` dictionary, follow a `return` inside the loop.  Early
return is modelled with `Except`, the dead statements staying in source
order inside the `do` block. -/

/-- The value `run_inference` produces: either the raw first-batch model
output, or the finalized reprojected result assembled after the loop. -/
inductive InferResult (β : Type) where
  | raw : β → InferResult β
  | finalized : List Int → List (List Rat) → InferResult β
deriving DecidableEq

/-- One iteration of the inference loop (`for unused_step, inputs in
enumerate(infer_loader):`): forward pass, `return results`, then the
(unreachable) `update_tests` call.  `updF` is the effect of
`self.update_tests(infer_sampler, inputs, results)` on the aggregation
state. -/
def inferBody {α β : Type} (modelF : α → β) (updF : α → β → AggState → AggState)
    (b : α) (st : AggState) : Except β AggState := do
  let results := modelF b
  throw results
  pure (updF b results st)

/-- The inference loop over all batches. -/
def inferLoop {α β : Type} (modelF : α → β)
    (updF : α → β → AggState → AggState) :
    List α → AggState → Except β AggState
  | [], st => pure st
  | b :: rest, st =>
    match inferBody modelF updF b st with
    | Except.error r => Except.error r
    | Except.ok st' => inferLoop modelF updF rest st'

/-- `run_inference`: reset the aggregation state, run the loop, and — when
the loop finishes without the early return — pop the original-order buffers
to build the finalized result (`none` models the `IndexError` of `pop()` on
an empty list). -/
def run_inference {α β : Type} (modelF : α → β)
    (updF : α → β → AggState → AggState) (batches : List α) :
    Option (InferResult β) :=
  match inferLoop modelF updF batches initAggState with
  | Except.error r => some (InferResult.raw r)
  | Except.ok st =>
    match st.ori_test_labels.getLast?, st.ori_test_probs.getLast? with
    | some labels, some probs => some (InferResult.finalized labels probs)
    | _, _ => none

/-! ## Helper lemmas -/

theorem everyNthAux_getElem? {α : Type} (step : Nat) (hstep : 0 < step) :
    ∀ (fuel : Nat) (l : List α) (k : Nat), l.length ≤ fuel →
      (everyNthAux step fuel l)[k]? = l[k * step]? := by
  intro fuel
  induction fuel with
  | zero =>
    intro l k h
    match l with
    | [] => simp [everyNthAux]
    | x :: xs => simp at h
  | succ fuel ih =>
    intro l k h
    match l with
    | [] => simp [everyNthAux]
    | x :: xs =>
      match k with
      | 0 => simp [everyNthAux]
      | k + 1 =>
        have hlen : (xs.drop (step - 1)).length ≤ fuel := by
          simp only [List.length_drop]
          simp only [List.length_cons] at h
          omega
        have harith : (k + 1) * step = (step - 1 + k * step) + 1 := by
          rw [Nat.succ_mul]
          generalize k * step = m
          omega
        calc (everyNthAux step (fuel + 1) (x :: xs))[k + 1]?
            = (everyNthAux step fuel (xs.drop (step - 1)))[k]? := by
              simp [everyNthAux]
          _ = (xs.drop (step - 1))[k * step]? := ih (xs.drop (step - 1)) k hlen
          _ = xs[step - 1 + k * step]? := List.getElem?_drop xs (step - 1) (k * step)
          _ = (x :: xs)[(k + 1) * step]? := by
              rw [harith, List.getElem?_cons_succ]

theorem everyNthAux_length {α : Type} (step : Nat) (hstep : 0 < step) :
    ∀ (fuel : Nat) (l : List α), l.length ≤ fuel →
      (everyNthAux step fuel l).length = (l.length + step - 1) / step := by
  intro fuel
  induction fuel with
  | zero =>
    intro l h
    match l with
    | [] =>
      simp only [everyNthAux, List.length_nil]
      rw [Nat.div_eq_of_lt (by omega)]
    | x :: xs => simp at h
  | succ fuel ih =>
    intro l h
    match l with
    | [] =>
      simp only [everyNthAux, List.length_nil]
      rw [Nat.div_eq_of_lt (by omega)]
    | x :: xs =>
      simp only [List.length_cons] at h
      have hlen : (xs.drop (step - 1)).length ≤ fuel := by
        simp only [List.length_drop]; omega
      have hstepdiv : ((xs.length - (step - 1)) + step - 1) / step =
          xs.length / step := by
        rcases le_or_lt (step - 1) xs.length with hle | hlt
        · congr 1
          omega
        · rw [Nat.div_eq_of_lt (by omega), Nat.div_eq_of_lt (by omega)]
      calc (everyNthAux step (fuel + 1) (x :: xs)).length
          = (everyNthAux step fuel (xs.drop (step - 1))).length + 1 := by
            simp [everyNthAux]
        _ = ((xs.drop (step - 1)).length + step - 1) / step + 1 := by
            rw [ih (xs.drop (step - 1)) hlen]
        _ = xs.length / step + 1 := by
            rw [List.length_drop]; exact congrArg (· + 1) hstepdiv
        _ = (xs.length + step) / step := (Nat.add_div_right xs.length hstep).symm
        _ = ((x :: xs).length + step - 1) / step := by
            simp only [List.length_cons]; congr 1; omega

theorem everyNthAux_mem {α : Type} (step : Nat) :
    ∀ (fuel : Nat) (l : List α) (x : α), x ∈ everyNthAux step fuel l → x ∈ l := by
  intro fuel
  induction fuel with
  | zero =>
    intro l x hx
    match l with
    | [] => simp [everyNthAux] at hx
    | y :: ys => simp [everyNthAux] at hx
  | succ fuel ih =>
    intro l x hx
    match l with
    | [] => simp [everyNthAux] at hx
    | y :: ys =>
      simp only [everyNthAux, List.mem_cons] at hx
      rcases hx with rfl | hx
      · exact List.mem_cons_self _ _
      · exact List.mem_cons_of_mem _ (List.drop_subset _ _ (ih _ _ hx))

theorem strideFrom_getElem? {α : Type} (l : List α) (start step k : Nat)
    (hstep : 0 < step) :
    (strideFrom l start step)[k]? = l[start + k * step]? := by
  unfold strideFrom everyNth
  rw [everyNthAux_getElem? step hstep _ _ k (Nat.le_refl _)]
  exact List.getElem?_drop l start (k * step)

theorem strideFrom_length {α : Type} (l : List α) (start step : Nat)
    (hstep : 0 < step) :
    (strideFrom l start step).length = ((l.length - start) + step - 1) / step := by
  unfold strideFrom everyNth
  rw [everyNthAux_length step hstep _ _ (Nat.le_refl _), List.length_drop]

theorem strideFrom_mem {α : Type} (l : List α) (start step : Nat) (x : α)
    (hx : x ∈ strideFrom l start step) : x ∈ l :=
  List.drop_subset _ _ (everyNthAux_mem step _ _ x hx)

/-- Length of a strided slice of a list whose length is an exact multiple of
the stride: `l[start::step]` has exactly `M` elements when
`l.length = step * M` and `start < step`. -/
theorem strideFrom_length_exact {α : Type} (l : List α) (start step M : Nat)
    (hstep : 0 < step) (hstart : start < step) (hlen : l.length = step * M) :
    (strideFrom l start step).length = M := by
  rw [strideFrom_length l start step hstep, hlen]
  match M with
  | 0 =>
    have h0 : step * 0 - start + step - 1 = step - 1 := by omega
    rw [h0, Nat.div_eq_of_lt (by omega)]
  | M + 1 =>
    have hM : step ≤ step * (M + 1) := Nat.le_mul_of_pos_right step (by omega)
    have : step * (M + 1) - start + step - 1 = step * (M + 1) + (step - 1 - start) := by
      generalize step * (M + 1) = n at *
      omega
    rw [this, Nat.mul_add_div hstep, Nat.div_eq_of_lt (by omega), Nat.add_zero]

theorem flatten_length_uniform {α : Type} (B : Nat) :
    ∀ (ls : List (List α)), (∀ l ∈ ls, l.length = B) →
      ls.flatten.length = ls.length * B := by
  intro ls
  induction ls with
  | nil => simp
  | cons l ls ih =>
    intro h
    simp only [List.flatten_cons, List.length_append, List.length_cons]
    rw [ih (fun x hx => h x (List.mem_cons_of_mem _ hx)),
        h l (List.mem_cons_self _ _), Nat.succ_mul]
    omega

theorem flatten_getElem?_uniform {α : Type} (B : Nat) :
    ∀ (ls : List (List α)) (i c : Nat), (∀ l ∈ ls, l.length = B) → c < B →
      ls.flatten[i * B + c]? = (ls.getD i [])[c]? := by
  intro ls
  induction ls with
  | nil => intro i c _ _; simp [List.getD]
  | cons l ls ih =>
    intro i c h hc
    have hl : l.length = B := h l (List.mem_cons_self _ _)
    have hrest : ∀ x ∈ ls, x.length = B :=
      fun x hx => h x (List.mem_cons_of_mem _ hx)
    match i with
    | 0 =>
      simp only [Nat.zero_mul, Nat.zero_add, List.flatten_cons, List.getD_cons_zero]
      exact List.getElem?_append_left (by omega)
    | i + 1 =>
      have harith : (i + 1) * B + c = l.length + (i * B + c) := by
        rw [hl, Nat.succ_mul]
        generalize i * B = m
        omega
      calc (l ++ ls.flatten)[(i + 1) * B + c]?
          = ls.flatten[(i + 1) * B + c - l.length]? :=
            List.getElem?_append_right (by omega)
        _ = ls.flatten[i * B + c]? := by rw [harith]; congr 1; omega
        _ = (ls.getD i [])[c]? := ih i c hrest hc

/-! ### Lemmas about the partitioned index table -/

theorem droppedIndices_length (N H B : Nat) :
    (droppedIndices N H B).length = N - drop_count N H B * H := by
  simp only [droppedIndices, List.length_take, List.length_range]
  omega

theorem droppedIndices_getElem? (N H B i : Nat)
    (hi : i < N - drop_count N H B * H) :
    (droppedIndices N H B)[i]? = some i := by
  simp only [droppedIndices]
  rw [List.getElem?_take, if_pos hi, List.getElem?_range (by omega)]

/-- Under the `__init__` precondition `N % H == 0`, the retained index count
is `H * (B * ((N/H)/B))`. -/
theorem dropped_length_eq (N H B : Nat) (_hH : 0 < H) (hdvd : N % H = 0) :
    N - drop_count N H B * H = H * (B * ((N / H) / B)) := by
  have h1 : H * (N / H) = N := Nat.mul_div_cancel' (Nat.dvd_of_mod_eq_zero hdvd)
  have h2 : B * ((N / H) / B) + (N / H) % B = N / H := Nat.div_add_mod (N / H) B
  unfold drop_count
  set a := B * ((N / H) / B) with ha
  set m := (N / H) % B with hm
  have h3 : N = H * a + H * m := by
    rw [← h1, ← h2, Nat.mul_add]
  rw [h3, Nat.mul_comm m H]
  omega

/-- Head `h`'s strided list `indices[h::num_heads]` has exactly
`B * ((N/H)/B)` entries. -/
theorem headList_length (N H B h : Nat) (hH : 0 < H) (hh : h < H)
    (hdvd : N % H = 0) :
    (strideFrom (droppedIndices N H B) h H).length = B * ((N / H) / B) := by
  refine strideFrom_length_exact _ h H _ hH hh ?_
  rw [droppedIndices_length, dropped_length_eq N H B hH hdvd]

/-- Entry `j` of head `h`'s strided list is the dataset index `h + j*H`. -/
theorem headList_getElem? (N H B h j : Nat) (hH : 0 < H) (hh : h < H)
    (hdvd : N % H = 0) (hj : j < B * ((N / H) / B)) :
    (strideFrom (droppedIndices N H B) h H)[j]? = some (h + j * H) := by
  rw [strideFrom_getElem? _ h H j hH]
  apply droppedIndices_getElem?
  rw [dropped_length_eq N H B hH hdvd]
  calc h + j * H < H + j * H := by omega
    _ = (j + 1) * H := by rw [Nat.succ_mul]; omega
    _ ≤ (B * ((N / H) / B)) * H := Nat.mul_le_mul_right H (by omega)
    _ = H * (B * ((N / H) / B)) := Nat.mul_comm _ _

theorem reshapeRows_length (B : Nat) (l : List Nat) :
    (reshapeRows B l).length = l.length / B := by
  simp [reshapeRows]

theorem reshapeRows_getElem? (B : Nat) (l : List Nat) (r : Nat)
    (hr : r < l.length / B) :
    (reshapeRows B l)[r]? = some ((l.drop (r * B)).take B) := by
  simp only [reshapeRows, List.getElem?_map, List.getElem?_range hr,
    Option.map_some']

theorem reshapeRows_row_length (B : Nat) (l : List Nat) (r : Nat)
    (hr : r * B + B ≤ l.length) :
    ((l.drop (r * B)).take B).length = B := by
  simp only [List.length_take, List.length_drop]
  omega

theorem reshapeRows_row_getElem? (B : Nat) (l : List Nat) (r c : Nat)
    (hc : c < B) :
    ((l.drop (r * B)).take B)[c]? = l[r * B + c]? := by
  rw [List.getElem?_take, if_pos hc, List.getElem?_drop]

/-- Every row of `reshapeRows B l` has exactly `B` entries when `B` divides
`l.length`. -/
theorem reshapeRows_mem_length (B : Nat) (l : List Nat) (row : List Nat)
    (_hB : 0 < B) (hdvd : l.length % B = 0) (hrow : row ∈ reshapeRows B l) :
    row.length = B := by
  simp only [reshapeRows, List.mem_map, List.mem_range] at hrow
  obtain ⟨r, hr, rfl⟩ := hrow
  apply reshapeRows_row_length
  have h1 : B * (l.length / B) = l.length := Nat.mul_div_cancel' (Nat.dvd_of_mod_eq_zero hdvd)
  calc r * B + B = (r + 1) * B := by rw [Nat.succ_mul]
    _ ≤ (l.length / B) * B := Nat.mul_le_mul_right B (by omega)
    _ = l.length := by rw [Nat.mul_comm]; exact h1

/-- Row count of the partitioned index table:
`H * floor((N/H) / B)`. -/
theorem indices_batched_length (N H B : Nat) (hH : 0 < H) (hB : 0 < B)
    (hdvd : N % H = 0) :
    (indices_batched N H B).length = H * ((N / H) / B) := by
  unfold indices_batched
  rw [flatten_length_uniform ((N / H) / B)]
  · rw [List.length_map, List.length_range]
  · intro blk hblk
    simp only [List.mem_map, List.mem_range] at hblk
    obtain ⟨h, hh, rfl⟩ := hblk
    rw [reshapeRows_length, headList_length N H B h hH hh hdvd,
      Nat.mul_div_cancel_left _ hB]

/-- Every row of the partitioned index table has exactly `B` columns. -/
theorem indices_batched_mem_length (N H B : Nat) (hH : 0 < H) (hB : 0 < B)
    (hdvd : N % H = 0) :
    ∀ row ∈ indices_batched N H B, row.length = B := by
  intro row hrow
  unfold indices_batched at hrow
  rw [List.mem_flatten] at hrow
  obtain ⟨blk, hblk, hrowblk⟩ := hrow
  simp only [List.mem_map, List.mem_range] at hblk
  obtain ⟨h, hh, rfl⟩ := hblk
  refine reshapeRows_mem_length B _ row hB ?_ hrowblk
  rw [headList_length N H B h hH hh hdvd, Nat.mul_comm, Nat.mul_mod_left]

/-- Closed form of the table entries: block `h` (rows `h*Q …  h*Q + Q - 1`,
`Q = (N/H)/B`) holds head `h`'s strided indices in order, row `q` column `c`
holding dataset index `h + (q*B + c)*H`. -/
theorem indices_batched_getElem? (N H B h q c : Nat) (hH : 0 < H) (hB : 0 < B)
    (hdvd : N % H = 0) (hh : h < H) (hq : q < (N / H) / B) (hc : c < B) :
    ((indices_batched N H B).getD (h * ((N / H) / B) + q) [])[c]? =
      some (h + (q * B + c) * H) := by
  have hQ : ∀ h' ∈ (List.range H).map
      (fun h' => reshapeRows B (strideFrom (droppedIndices N H B) h' H)),
      h'.length = (N / H) / B := by
    intro blk hblk
    simp only [List.mem_map, List.mem_range] at hblk
    obtain ⟨h', hh', rfl⟩ := hblk
    rw [reshapeRows_length, headList_length N H B h' hH hh' hdvd,
      Nat.mul_div_cancel_left _ hB]
  have hblk : (indices_batched N H B)[h * ((N / H) / B) + q]? =
      some ((strideFrom (droppedIndices N H B) h H).drop (q * B) |>.take B) := by
    unfold indices_batched
    rw [flatten_getElem?_uniform ((N / H) / B) _ h q hQ hq]
    have hmap : ((List.range H).map
        (fun h' => reshapeRows B (strideFrom (droppedIndices N H B) h' H)))[h]? =
        some (reshapeRows B (strideFrom (droppedIndices N H B) h H)) := by
      rw [List.getElem?_map, List.getElem?_range hh, Option.map_some']
    rw [List.getD_eq_getElem?_getD, hmap, Option.getD_some]
    apply reshapeRows_getElem?
    rw [headList_length N H B h hH hh hdvd, Nat.mul_div_cancel_left _ hB]
    exact hq
  rw [List.getD_eq_getElem?_getD, hblk, Option.getD_some,
    reshapeRows_row_getElem? B _ q c hc,
    headList_getElem? N H B h (q * B + c) hH hh hdvd]
  calc q * B + c < q * B + B := by omega
    _ = (q + 1) * B := by rw [Nat.succ_mul]
    _ ≤ ((N / H) / B) * B := Nat.mul_le_mul_right B (by omega)
    _ = B * ((N / H) / B) := Nat.mul_comm _ _

/-! ### Lemmas about padding and sharding -/

theorem padRowOrder_mem (rowOrder : List Nat) (R : Nat) (x : Nat)
    (hx : x ∈ padRowOrder rowOrder R) : x ∈ rowOrder := by
  unfold padRowOrder at hx
  split at hx
  · rcases List.mem_append.mp hx with h | h
    · exact h
    · exact List.take_subset _ _ h
  · exact hx

/-- When the wraparound prefix is long enough (`padding_size ≤ len`, or no
padding is needed), the padded list has exactly `ceil(len / R) * R`
entries. -/
theorem padRowOrder_length (rowOrder : List Nat) (R : Nat) (hR : 0 < R)
    (hfeas : rowOrder.length % R = 0 ∨
      R - rowOrder.length % R ≤ rowOrder.length) :
    (padRowOrder rowOrder R).length = ((rowOrder.length + R - 1) / R) * R := by
  unfold padRowOrder
  by_cases h0 : rowOrder.length % R = 0
  · rw [if_neg (not_not_intro h0)]
    obtain ⟨q, hq⟩ := Nat.dvd_of_mod_eq_zero h0
    rw [hq]
    have hceil : (R * q + R - 1) / R = q := by
      have h2 : R * q + R - 1 = R * q + (R - 1) := by omega
      rw [h2, Nat.mul_add_div hR, Nat.div_eq_of_lt (by omega), Nat.add_zero]
    rw [hceil, Nat.mul_comm]
  · rw [if_pos h0]
    have hfeas' : R - rowOrder.length % R ≤ rowOrder.length :=
      hfeas.resolve_left h0
    obtain ⟨q, r, hrpos, hrlt, hn⟩ :
        ∃ q r, 0 < r ∧ r < R ∧ rowOrder.length = R * q + r :=
      ⟨rowOrder.length / R, rowOrder.length % R, Nat.pos_of_ne_zero h0,
        Nat.mod_lt _ hR, (Nat.div_add_mod _ _).symm⟩
    have hmod' : (R * q + r) % R = r := by
      rw [Nat.mul_add_mod, Nat.mod_eq_of_lt hrlt]
    rw [List.length_append, List.length_take, hn, hmod']
    rw [hn, hmod'] at hfeas'
    have hceil : (R * q + r + R - 1) / R = q + 1 := by
      have h2 : R * q + r + R - 1 = R * (q + 1) + (r - 1) := by
        rw [Nat.mul_add, Nat.mul_one]
        omega
      rw [h2, Nat.mul_add_div hR, Nat.div_eq_of_lt (by omega), Nat.add_zero]
    rw [hceil, Nat.min_eq_left (by omega), Nat.add_mul, Nat.one_mul,
      Nat.mul_comm q R]
    omega

/-! ## Claim theorems -/

/-- **C1** (corrected): the claim is false as stated — for a table with
1 row and 3 replicas (dataset `N = 1`, `H = 1`, `B = 1`), the wraparound
padding `indices + indices[:padding_size]` is too short (`padding_size = 2`
but only 1 row exists), the padded length is 2 instead of 3, and the
`assert len(indices) * self.batch_size == self.total_size` in `__iter__`
fails (modelled by `iterChecked … = none`), even though the construction
invariant `num_samples * num_replicas == total_size` does hold.  The
row-order list used is the natural order `list(range(1))` produced by the
unshuffled branch (any permutation of a 1-element list is the same). -/
theorem c1_padding_assert_fails :
    num_samples (indices_batched 1 1 1).length 1 3 * 3 =
      total_size (indices_batched 1 1 1).length 1 3 ∧
    (padRowOrder (List.range (indices_batched 1 1 1).length) 3).length * 1 ≠
      total_size (indices_batched 1 1 1).length 1 3 ∧
    iterChecked 1 1 1 3 0 (List.range (indices_batched 1 1 1).length) = none := by
  decide

/-- **C1** (amended): `num_samples * num_replicas == total_size` always
holds at construction, and — provided the wraparound prefix is long enough,
i.e. the table row count `rows` satisfies `rows % R = 0` or
`R - rows % R ≤ rows` — for every epoch row order (any permutation of the
rows) and every rank, the padded list length times `B` equals `total_size`
and the flattened per-rank sequence has length exactly `num_samples`, so
both `__iter__` assertions pass (`iterChecked` succeeds). -/
theorem c1_sampler_length_invariants (N H B R rank : Nat) (rowOrder : List Nat)
    (hH : 0 < H) (hB : 0 < B) (hR : 0 < R) (hrank : rank < R)
    (hdvd : N % H = 0)
    (hlen : rowOrder.length = (indices_batched N H B).length)
    (hmem : ∀ i ∈ rowOrder, i < (indices_batched N H B).length)
    (hfeas : (indices_batched N H B).length % R = 0 ∨
      R - (indices_batched N H B).length % R ≤ (indices_batched N H B).length) :
    num_samples (indices_batched N H B).length B R * R =
      total_size (indices_batched N H B).length B R ∧
    (padRowOrder rowOrder R).length * B =
      total_size (indices_batched N H B).length B R ∧
    (iterFlat (indices_batched N H B) rowOrder R rank).length =
      num_samples (indices_batched N H B).length B R ∧
    iterChecked N H B R rank rowOrder =
      some (iterFlat (indices_batched N H B) rowOrder R rank) := by
  set table := indices_batched N H B with htable
  set rows := table.length with hrows
  have hpadlen : (padRowOrder rowOrder R).length = ((rows + R - 1) / R) * R := by
    rw [padRowOrder_length rowOrder R hR (by rw [hlen]; exact hfeas), hlen]
  have hsel : (strideFrom (padRowOrder rowOrder R) rank R).length =
      (rows + R - 1) / R := by
    refine strideFrom_length_exact _ rank R _ hR hrank ?_
    rw [hpadlen, Nat.mul_comm]
  have hwidth : ∀ row ∈ (strideFrom (padRowOrder rowOrder R) rank R).map
      (fun i => table.getD i []), row.length = B := by
    intro row hrow
    rw [List.mem_map] at hrow
    obtain ⟨i, hi, rfl⟩ := hrow
    have hilt : i < table.length := by
      apply hmem
      exact padRowOrder_mem rowOrder R i (strideFrom_mem _ rank R i hi)
    rw [List.getD_eq_getElem _ _ hilt]
    exact indices_batched_mem_length N H B hH hB hdvd _ (List.getElem_mem hilt)
  have hflatlen : (iterFlat table rowOrder R rank).length =
      num_samples rows B R := by
    unfold iterFlat
    rw [flatten_length_uniform B _ hwidth, List.length_map, hsel]
    rfl
  have hassert1 : (padRowOrder rowOrder R).length * B = total_size rows B R := by
    rw [hpadlen]
    unfold total_size num_samples
    ring
  have hassert2 : (((strideFrom (padRowOrder rowOrder R) rank R).map
      (fun i => table.getD i [])).flatten).length = num_samples rows B R :=
    hflatlen
  refine ⟨rfl, hassert1, hflatlen, ?_⟩
  show (if (padRowOrder rowOrder R).length * B ≠ total_size table.length B R
      then none
      else if (((strideFrom (padRowOrder rowOrder R) rank R).map
          (fun i => table.getD i [])).flatten).length ≠
            num_samples table.length B R then none
        else some (((strideFrom (padRowOrder rowOrder R) rank R).map
          (fun i => table.getD i [])).flatten)) =
    some (iterFlat table rowOrder R rank)
  rw [if_neg (not_not_intro hassert1), if_neg (not_not_intro hassert2)]
  rfl

/-- **C1** witness: a concrete instantiation (dataset of 12 indices, 2
heads, batch size 3, 2 replicas, rank 1, a genuine permutation of the 4
table rows) on which all hypotheses of the amended theorem hold and all
four conclusions evaluate. -/
theorem c1_sampler_length_invariants_witness :
    num_samples (indices_batched 12 2 3).length 3 2 * 2 =
      total_size (indices_batched 12 2 3).length 3 2 ∧
    (padRowOrder [2, 0, 3, 1] 2).length * 3 =
      total_size (indices_batched 12 2 3).length 3 2 ∧
    (iterFlat (indices_batched 12 2 3) [2, 0, 3, 1] 2 1).length =
      num_samples (indices_batched 12 2 3).length 3 2 ∧
    iterChecked 12 2 3 2 1 [2, 0, 3, 1] =
      some (iterFlat (indices_batched 12 2 3) [2, 0, 3, 1] 2 1) :=
  c1_sampler_length_invariants 12 2 3 2 1 [2, 0, 3, 1] (by decide) (by decide)
    (by decide) (by decide) (by decide) (by decide) (by decide) (by decide)

/-- **C2**: for every `(N, H, B)` with `H, B > 0` and `N % H == 0`, writing
`Q = (N/H) / B`, the partitioned index table built at construction has
`H * Q` rows; every row has exactly `B` columns; and block `h` (rows
`h*Q + q` for `q < Q`, stacked in ascending head order) holds exactly head
`h`'s strided indices `h + j*H` in order, with entry `(h*Q + q, c)` equal to
`h + (q*B + c)*H` — in particular each row is head-homogeneous (all entries
congruent to `h` modulo `H`) and each head's strided list is cut off after
`B * Q` entries, dropping its `(N/H) % B` trailing samples. -/
theorem c2_partition_table (N H B : Nat) (hH : 0 < H) (hB : 0 < B)
    (hdvd : N % H = 0) :
    (indices_batched N H B).length = H * ((N / H) / B) ∧
    (∀ row ∈ indices_batched N H B, row.length = B) ∧
    (∀ h q c : Nat, h < H → q < (N / H) / B → c < B →
      ((indices_batched N H B).getD (h * ((N / H) / B) + q) [])[c]? =
        some (h + (q * B + c) * H)) :=
  ⟨indices_batched_length N H B hH hB hdvd,
   indices_batched_mem_length N H B hH hB hdvd,
   fun h q c hh hq hc => indices_batched_getElem? N H B h q c hH hB hdvd hh hq hc⟩

/-- **C2** witness: the spec's own scenario `N = 12, H = 2, B = 3`
(`Q = 2`): 4 rows, 3 columns each, and the first row of head 1's block
(table row `1*2 + 0 = 2`) starts with dataset index `1 + (0*3 + 0)*2 = 1`,
while head 0's block starts with index 0. -/
theorem c2_partition_table_witness :
    (indices_batched 12 2 3).length = 2 * ((12 / 2) / 3) ∧
    ((indices_batched 12 2 3).getD (1 * ((12 / 2) / 3) + 0) [])[0]? =
      some (1 + (0 * 3 + 0) * 2) ∧
    ((indices_batched 12 2 3).getD (0 * ((12 / 2) / 3) + 1) [])[2]? =
      some (0 + (1 * 3 + 2) * 2) := by
  have h := c2_partition_table 12 2 3 (by decide) (by decide) (by decide)
  exact ⟨h.1, h.2.2 1 0 0 (by decide) (by decide) (by decide),
    h.2.2 0 1 2 (by decide) (by decide) (by decide)⟩

/-- **C5**: for every table, row order, replica count `R > 0` and rank, the
rows selected by `__iter__` are exactly every `R`-th entry of the padded
row-order list starting at offset `rank` (striped sharding: selected entry
`k` is padded entry `rank + k*R`), and the yielded sequence is the
concatenation of the corresponding width-`B` table rows in that order
(position `k*B + c` of the output is column `c` of the `k`-th selected
row). -/
theorem c5_striped_sharding (table : List (List Nat)) (rowOrder : List Nat)
    (R rank B : Nat) (hR : 0 < R)
    (hwidth : ∀ i ∈ strideFrom (padRowOrder rowOrder R) rank R,
      (table.getD i []).length = B) :
    (∀ k : Nat, (strideFrom (padRowOrder rowOrder R) rank R)[k]? =
      (padRowOrder rowOrder R)[rank + k * R]?) ∧
    iterFlat table rowOrder R rank =
      ((strideFrom (padRowOrder rowOrder R) rank R).map
        (fun i => table.getD i [])).flatten ∧
    (∀ k c : Nat, c < B →
      (iterFlat table rowOrder R rank)[k * B + c]? =
        ((strideFrom (padRowOrder rowOrder R) rank R)[k]?).bind
          (fun i => (table.getD i [])[c]?)) := by
  refine ⟨fun k => strideFrom_getElem? _ rank R k hR, rfl, ?_⟩
  intro k c hc
  set sel := strideFrom (padRowOrder rowOrder R) rank R with hsel
  have hmap : ∀ row ∈ sel.map (fun i => table.getD i []), row.length = B := by
    intro row hrow
    rw [List.mem_map] at hrow
    obtain ⟨i, hi, rfl⟩ := hrow
    exact hwidth i hi
  unfold iterFlat
  rw [← hsel, flatten_getElem?_uniform B _ k c hmap hc]
  rcases h : sel[k]? with _ | i
  · have hk : sel.length ≤ k := by
      by_contra hk
      rw [List.getElem?_eq_getElem (by omega)] at h
      exact Option.noConfusion h
    rw [List.getD_eq_default _ _ (by rw [List.length_map]; exact hk)]
    rfl
  · have hk : k < sel.length := by
      by_contra hk
      rw [List.getElem?_eq_none (by omega)] at h
      exact Option.noConfusion h
    have hselk : sel[k] = i := by
      have h2 := List.getElem?_eq_getElem hk
      rw [h] at h2
      exact Option.some_inj.mp h2.symm
    rw [List.getD_eq_getElem _ _ (by rw [List.length_map]; exact hk),
      List.getElem_map, hselk]
    rfl

/-- **C5** witness: table `[[10,11],[20,21],[30,31]]`, row order `[0,1,2]`
(padded to `[0,1,2,0]` for `R = 2`), rank 1: the selected rows are padded
entries 1 and 3 (rows 1 and 0), and output position `1*2 + 1` is column 1
of the second selected row. -/
theorem c5_striped_sharding_witness :
    (strideFrom (padRowOrder [0, 1, 2] 2) 1 2)[1]? =
      (padRowOrder [0, 1, 2] 2)[1 + 1 * 2]? ∧
    (iterFlat [[10, 11], [20, 21], [30, 31]] [0, 1, 2] 2 1)[1 * 2 + 1]? =
      ((strideFrom (padRowOrder [0, 1, 2] 2) 1 2)[1]?).bind
        (fun i => (([[10, 11], [20, 21], [30, 31]] : List (List Nat)).getD i [])[1]?) := by
  have h := c5_striped_sharding [[10, 11], [20, 21], [30, 31]] [0, 1, 2] 2 1 2
    (by decide) (by decide)
  exact ⟨h.1 1, h.2.2 1 1 (by decide)⟩

/-! ### Lemmas about the aggregator phases -/

theorem allocIfNew_curr (numClasses cloudId : Nat) (poss : List Rat)
    (s : AggState) :
    (allocIfNew numClasses cloudId poss s).curr_cloud_id = (cloudId : Int) := by
  unfold allocIfNew
  split
  next h => exact h
  next => rfl

theorem allocIfNew_ori_probs (numClasses cloudId : Nat) (poss : List Rat)
    (s : AggState) :
    (allocIfNew numClasses cloudId poss s).ori_test_probs = s.ori_test_probs := by
  unfold allocIfNew
  split <;> rfl

theorem allocIfNew_ori_labels (numClasses cloudId : Nat) (poss : List Rat)
    (s : AggState) :
    (allocIfNew numClasses cloudId poss s).ori_test_labels = s.ori_test_labels := by
  unfold allocIfNew
  split <;> rfl

theorem allocIfNew_complete (numClasses cloudId : Nat) (poss : List Rat)
    (s : AggState) :
    (allocIfNew numClasses cloudId poss s).complete_infer =
      if s.curr_cloud_id = (cloudId : Int) then s.complete_infer else false := by
  unfold allocIfNew
  split <;> rfl

theorem allocIfNew_probs_of_ne (numClasses cloudId : Nat) (poss : List Rat)
    (s : AggState) (h : s.curr_cloud_id ≠ (cloudId : Int)) :
    (allocIfNew numClasses cloudId poss s).test_probs =
      s.test_probs ++
        [List.replicate poss.length (List.replicate numClasses 0)] := by
  unfold allocIfNew
  rw [if_neg h]

theorem allocIfNew_labels_of_ne (numClasses cloudId : Nat) (poss : List Rat)
    (s : AggState) (h : s.curr_cloud_id ≠ (cloudId : Int)) :
    (allocIfNew numClasses cloudId poss s).test_labels =
      s.test_labels ++ [List.replicate poss.length 0] := by
  unfold allocIfNew
  rw [if_neg h]

theorem writeBuffers_some
    (upd : List (List Rat) → List Int → List (List Rat) × List Int)
    (cloudId : Nat) (s1 : AggState) (probs : List (List Rat))
    (labels : List Int) (hp : s1.test_probs[cloudId]? = some probs)
    (hl : s1.test_labels[cloudId]? = some labels) :
    writeBuffers upd cloudId s1 = some
      ({ s1 with
        test_probs := s1.test_probs.set cloudId (upd probs labels).1
        test_labels := s1.test_labels.set cloudId (upd probs labels).2 },
        upd probs labels) := by
  unfold writeBuffers
  rw [hp, hl]

theorem writeBuffers_none
    (upd : List (List Rat) → List Int → List (List Rat) × List Int)
    (cloudId : Nat) (s1 : AggState)
    (hp : s1.test_probs[cloudId]? = none) :
    writeBuffers upd cloudId s1 = none := by
  unfold writeBuffers
  rw [hp]

theorem writeBuffers_inv
    {upd : List (List Rat) → List Int → List (List Rat) × List Int}
    {cloudId : Nat} {s1 : AggState}
    {out : AggState × (List (List Rat) × List Int)}
    (h : writeBuffers upd cloudId s1 = some out) :
    ∃ probs labels, s1.test_probs[cloudId]? = some probs ∧
      s1.test_labels[cloudId]? = some labels ∧
      out = ({ s1 with
        test_probs := s1.test_probs.set cloudId (upd probs labels).1
        test_labels := s1.test_labels.set cloudId (upd probs labels).2 },
        upd probs labels) := by
  unfold writeBuffers at h
  split at h
  case _ probs labels hp hl =>
    exact ⟨probs, labels, hp, hl, (Option.some_inj.mp h).symm⟩
  all_goals exact absurd h (by simp)

theorem completeIfCovered_not_covered (projInds : Option (List Nat))
    (split : String) (poss : List Rat)
    (spr : AggState × (List (List Rat) × List Int))
    (h : ¬(split = ("test" : String) ∧
      countExceeding poss end_threshold = poss.length)) :
    completeIfCovered projInds split poss spr = some spr.1 := by
  unfold completeIfCovered
  rw [if_neg h]

theorem completeIfCovered_inv (projInds : Option (List Nat))
    (split : String) (poss : List Rat)
    (spr : AggState × (List (List Rat) × List Int)) (s' : AggState)
    (hcond : split = ("test" : String) ∧
      countExceeding poss end_threshold = poss.length)
    (h : completeIfCovered projInds split poss spr = some s') :
    ∃ oriP oriL,
      gatherIdx spr.2.1 (projInds.getD (List.range spr.2.1.length)) = some oriP ∧
      gatherIdx spr.2.2 (projInds.getD (List.range spr.2.1.length)) = some oriL ∧
      s' = { spr.1 with
        ori_test_probs := spr.1.ori_test_probs ++ [oriP]
        ori_test_labels := spr.1.ori_test_labels ++ [oriL]
        complete_infer := true } := by
  unfold completeIfCovered at h
  rw [if_pos hcond] at h
  split at h
  case _ oriP oriL hgp hgl =>
    exact ⟨oriP, oriL, hgp, hgl, (Option.some_inj.mp h).symm⟩
  all_goals exact absurd h (by simp)

theorem gatherIdx_range' {α : Type} :
    ∀ (n k : Nat) (l : List α), k + n = l.length →
      gatherIdx l (List.range' k n) = some (l.drop k) := by
  intro n
  induction n with
  | zero =>
    intro k l hk
    rw [List.drop_eq_nil_of_le (by omega)]
    rfl
  | succ n ih =>
    intro k l hk
    have hklt : k < l.length := by omega
    rw [List.range'_succ]
    show (match l[k]? with
      | none => none
      | some x =>
        match gatherIdx l (List.range' (k + 1) n) with
        | none => none
        | some xs => some (x :: xs)) = some (l.drop k)
    rw [List.getElem?_eq_getElem hklt, ih (k + 1) l (by omega)]
    show some (l[k] :: l.drop (k + 1)) = some (l.drop k)
    rw [← List.drop_eq_getElem_cons hklt]

theorem gatherIdx_range {α : Type} (l : List α) :
    gatherIdx l (List.range l.length) = some l := by
  rw [List.range_eq_range']
  have h := gatherIdx_range' l.length 0 l (by omega)
  rw [List.drop_zero] at h
  exact h

/-- **C3**: for every successful `update_tests` step whose incoming state is
not already marked complete for the same cloud, the resulting completion
flag is `true` exactly when the number of possibility-map entries strictly
above the `0.5` threshold equals the cloud's point count **and** the
sampler's split is `test`; and the completion actions (appending the
gathered original-order buffers) happen exactly in that case — in
particular, for every split other than `test` the flag is never set and no
output buffer is appended, even at full coverage. -/
theorem c3_completion_condition (numClasses : Nat)
    (upd : List (List Rat) → List Int → List (List Rat) × List Int)
    (projInds : Option (List Nat)) (split : String) (cloudId : Nat)
    (possibilities : List (List Rat)) (s s' : AggState) (poss : List Rat)
    (hposs : possibilities[cloudId]? = some poss)
    (hfresh : s.complete_infer = false ∨ s.curr_cloud_id ≠ (cloudId : Int))
    (hrun : update_tests numClasses upd projInds split cloudId possibilities s =
      some s') :
    (s'.complete_infer = true ↔
      (split = ("test" : String) ∧
        countExceeding poss end_threshold = poss.length)) ∧
    s'.ori_test_probs.length = s.ori_test_probs.length +
      (if split = ("test" : String) ∧
        countExceeding poss end_threshold = poss.length then 1 else 0) ∧
    s'.ori_test_labels.length = s.ori_test_labels.length +
      (if split = ("test" : String) ∧
        countExceeding poss end_threshold = poss.length then 1 else 0) := by
  unfold update_tests at hrun
  rw [hposs] at hrun
  obtain ⟨out, hw, hc⟩ := Option.bind_eq_some.mp hrun
  obtain ⟨probs, labels, hp, hl, rfl⟩ := writeBuffers_inv hw
  by_cases hcond : split = ("test" : String) ∧
      countExceeding poss end_threshold = poss.length
  · obtain ⟨oriP, oriL, hgp, hgl, rfl⟩ :=
      completeIfCovered_inv projInds split poss _ s' hcond hc
    refine ⟨by simp [hcond], ?_, ?_⟩
    · simp [if_pos hcond, allocIfNew_ori_probs]
    · simp [if_pos hcond, allocIfNew_ori_labels]
  · rw [completeIfCovered_not_covered projInds split poss _ hcond] at hc
    obtain rfl := Option.some_inj.mp hc.symm
    refine ⟨?_, ?_, ?_⟩
    · simp only [allocIfNew_complete]
      constructor
      · intro hcomp
        exfalso
        rcases hfresh with hf | hf
        · rw [if_neg] at hcomp
          · exact Bool.false_ne_true hcomp
          · intro hcurr
            rw [if_pos hcurr, hf] at hcomp
            exact Bool.false_ne_true hcomp
        · rw [if_neg hf] at hcomp
          exact Bool.false_ne_true hcomp
      · intro hc2
        exact absurd hc2 hcond
    · simp [if_neg hcond, allocIfNew_ori_probs]
    · simp [if_neg hcond, allocIfNew_ori_labels]

/-- **C3** witness: a fresh state observing cloud 0 of a one-point cloud
with full coverage (possibility `1 > 0.5`) on the `test` split: the flag is
set and one output buffer is appended; the same coverage on the `train`
split leaves the flag unset. -/
theorem c3_completion_condition_witness :
    ((AggState.mk 0 [[[0]]] [[0]] [[[0]]] [[0]] true).complete_infer = true ↔
      (("test" : String) = ("test" : String) ∧
        countExceeding [1] end_threshold = [(1 : Rat)].length)) ∧
    (AggState.mk 0 [[[0]]] [[0]] [[[0]]] [[0]] true).ori_test_probs.length =
      initAggState.ori_test_probs.length +
      (if ("test" : String) = ("test" : String) ∧
        countExceeding [1] end_threshold = [(1 : Rat)].length then 1 else 0) ∧
    (AggState.mk 0 [[[0]]] [[0]] [[[0]]] [[0]] true).ori_test_labels.length =
      initAggState.ori_test_labels.length +
      (if ("test" : String) = ("test" : String) ∧
        countExceeding [1] end_threshold = [(1 : Rat)].length then 1 else 0) :=
  c3_completion_condition 1 (fun p l => (p, l)) none ("test") 0 [[1]]
    initAggState (AggState.mk 0 [[[0]]] [[0]] [[[0]]] [[0]] true) [1]
    (by decide) (Or.inl (by decide)) (by decide)

/-- **C7**: on completion with no external `proj_inds`, the projection
defaults to the identity ordering `[0 .. count)` and the appended
original-order output buffers are element-for-element equal to the
accumulated probability/label buffers (the ones just written back at the
current cloud id). -/
theorem c7_identity_projection (numClasses : Nat)
    (upd : List (List Rat) → List Int → List (List Rat) × List Int)
    (split : String) (cloudId : Nat) (possibilities : List (List Rat))
    (s s' : AggState) (poss : List Rat)
    (hposs : possibilities[cloudId]? = some poss)
    (hsplit : split = ("test" : String))
    (hcov : countExceeding poss end_threshold = poss.length)
    (hshape : ∀ p l, (upd p l).2.length = (upd p l).1.length)
    (hrun : update_tests numClasses upd none split cloudId possibilities s =
      some s') :
    s'.ori_test_probs = s.ori_test_probs ++ [s'.test_probs.getD cloudId []] ∧
    s'.ori_test_labels = s.ori_test_labels ++ [s'.test_labels.getD cloudId []] := by
  unfold update_tests at hrun
  rw [hposs] at hrun
  obtain ⟨out, hw, hc⟩ := Option.bind_eq_some.mp hrun
  obtain ⟨probs, labels, hp, hl, rfl⟩ := writeBuffers_inv hw
  obtain ⟨oriP, oriL, hgp, hgl, rfl⟩ :=
    completeIfCovered_inv none split poss _ s' ⟨hsplit, hcov⟩ hc
  have hcloudlt : cloudId < (allocIfNew numClasses cloudId poss s).test_probs.length := by
    obtain ⟨hlt, -⟩ := List.getElem?_eq_some.mp hp
    exact hlt
  have hcloudlt2 : cloudId < (allocIfNew numClasses cloudId poss s).test_labels.length := by
    obtain ⟨hlt, -⟩ := List.getElem?_eq_some.mp hl
    exact hlt
  simp only [Option.getD_none] at hgp hgl
  rw [gatherIdx_range (upd probs labels).1] at hgp
  rw [← hshape probs labels, gatherIdx_range (upd probs labels).2] at hgl
  obtain rfl := Option.some_inj.mp hgp
  obtain rfl := Option.some_inj.mp hgl
  constructor
  · simp only [allocIfNew_ori_probs]
    congr 1
    rw [List.getD_eq_getElem?_getD,
      List.getElem?_set_eq_of_lt _ hcloudlt, Option.getD_some]
  · simp only [allocIfNew_ori_labels]
    congr 1
    rw [List.getD_eq_getElem?_getD,
      List.getElem?_set_eq_of_lt _ hcloudlt2, Option.getD_some]

/-- **C7** witness: fresh state, cloud 0 of a two-point cloud fully
covered, `update_probs` replacing the buffers with fixed values of the
right shape; the appended output buffers equal the accumulated ones. -/
theorem c7_identity_projection_witness :
    (AggState.mk 0 [[[7], [8]]] [[5, 6]] [[[7], [8]]] [[5, 6]] true).ori_test_probs =
      initAggState.ori_test_probs ++
        [(AggState.mk 0 [[[7], [8]]] [[5, 6]] [[[7], [8]]] [[5, 6]] true).test_probs.getD 0 []] ∧
    (AggState.mk 0 [[[7], [8]]] [[5, 6]] [[[7], [8]]] [[5, 6]] true).ori_test_labels =
      initAggState.ori_test_labels ++
        [(AggState.mk 0 [[[7], [8]]] [[5, 6]] [[[7], [8]]] [[5, 6]] true).test_labels.getD 0 []] :=
  c7_identity_projection 1 (fun p _ => ([[7], [8]].take p.length, [5, 6].take p.length))
    ("test") 0 [[1, 1]] initAggState
    (AggState.mk 0 [[[7], [8]]] [[5, 6]] [[[7], [8]]] [[5, 6]] true) [1, 1]
    (by decide) (by decide) (by decide)
    (fun p l => by simp) (by decide)

/-- **C10**: `update_tests` indexes the append-only buffer lists with the
raw incoming cloud id.  For a state holding `n` buffers that observes a new
cloud id (different from the tracked one, on a non-test split so that the
completion machinery is out of the way):

* id `= n` (strictly sequential arrival) succeeds, and the raw id indexes
  exactly the buffer just appended: the result holds `n + 1` buffers, tracks
  the new id, and position `n = cloudId` holds `update_probs` applied to the
  fresh zero buffers;
* id `> n` raises an out-of-range `IndexError` (`none`);
* id `< n` (a stale id) succeeds but writes the *wrong* buffer: the freshly
  appended buffer at position `n` is left as zeros while position `cloudId`
  is overwritten from the old buffers.

Hence correct accumulation relies on distinct ids arriving as `0, 1, 2, …`,
each new id equalling the current buffer count. -/
theorem c10_raw_id_indexing (numClasses : Nat)
    (upd : List (List Rat) → List Int → List (List Rat) × List Int)
    (projInds : Option (List Nat)) (split : String) (cloudId : Nat)
    (possibilities : List (List Rat)) (s : AggState) (poss : List Rat)
    (hposs : possibilities[cloudId]? = some poss)
    (hne : s.curr_cloud_id ≠ (cloudId : Int))
    (hlab : s.test_labels.length = s.test_probs.length)
    (hsplit : split ≠ ("test" : String)) :
    (cloudId = s.test_probs.length →
      (update_tests numClasses upd projInds split cloudId possibilities s).map
          (fun t => (t.curr_cloud_id, t.test_probs.length,
            t.test_probs.getD cloudId [])) =
        some ((cloudId : Int), s.test_probs.length + 1,
          (upd (List.replicate poss.length (List.replicate numClasses 0))
            (List.replicate poss.length 0)).1)) ∧
    (s.test_probs.length < cloudId →
      update_tests numClasses upd projInds split cloudId possibilities s =
        none) ∧
    (cloudId < s.test_probs.length →
      (update_tests numClasses upd projInds split cloudId possibilities s).map
          (fun t => (t.test_probs.length,
            t.test_probs.getD s.test_probs.length [],
            t.test_probs.getD cloudId [])) =
        some (s.test_probs.length + 1,
          List.replicate poss.length (List.replicate numClasses 0),
          (upd (s.test_probs.getD cloudId [])
            (s.test_labels.getD cloudId [])).1)) := by
  have hcond : ¬(split = ("test" : String) ∧
      countExceeding poss end_threshold = poss.length) :=
    fun hc => hsplit hc.1
  have hprobs1 : (allocIfNew numClasses cloudId poss s).test_probs =
      s.test_probs ++
        [List.replicate poss.length (List.replicate numClasses 0)] :=
    allocIfNew_probs_of_ne numClasses cloudId poss s hne
  have hlabels1 : (allocIfNew numClasses cloudId poss s).test_labels =
      s.test_labels ++ [List.replicate poss.length 0] :=
    allocIfNew_labels_of_ne numClasses cloudId poss s hne
  have hun : update_tests numClasses upd projInds split cloudId possibilities s =
      (writeBuffers upd cloudId (allocIfNew numClasses cloudId poss s)).bind
        (completeIfCovered projInds split poss) := by
    unfold update_tests
    rw [hposs]
  refine ⟨?_, ?_, ?_⟩
  · -- sequential arrival: cloudId = n
    intro hn
    have hp : (allocIfNew numClasses cloudId poss s).test_probs[cloudId]? =
        some (List.replicate poss.length (List.replicate numClasses 0)) := by
      rw [hprobs1, hn]
      exact List.getElem?_concat_length _ _
    have hl : (allocIfNew numClasses cloudId poss s).test_labels[cloudId]? =
        some (List.replicate poss.length 0) := by
      rw [hlabels1, hn, ← hlab]
      exact List.getElem?_concat_length _ _
    rw [hun, writeBuffers_some upd cloudId _ _ _ hp hl, Option.some_bind,
      completeIfCovered_not_covered projInds split poss _ hcond]
    simp only [Option.map_some', Option.some_inj, Prod.mk.injEq]
    refine ⟨allocIfNew_curr numClasses cloudId poss s, ?_, ?_⟩
    · simp [hprobs1]
    · rw [List.getD_eq_getElem?_getD, List.getElem?_set_eq_of_lt]
      · rfl
      · rw [hprobs1, List.length_append, hn]
        simp
  · -- out-of-range id: n < cloudId
    intro hn
    rw [hun, writeBuffers_none upd cloudId _ (by
      rw [hprobs1]
      exact List.getElem?_eq_none (by simp; omega))]
    rfl
  · -- stale id: cloudId < n
    intro hn
    have hget : s.test_probs[cloudId]? = some (s.test_probs.getD cloudId []) := by
      rw [List.getD_eq_getElem _ _ hn]
      exact List.getElem?_eq_getElem hn
    have hgetl : s.test_labels[cloudId]? =
        some (s.test_labels.getD cloudId []) := by
      rw [List.getD_eq_getElem _ _ (by omega)]
      exact List.getElem?_eq_getElem (by omega)
    have hp : (allocIfNew numClasses cloudId poss s).test_probs[cloudId]? =
        some (s.test_probs.getD cloudId []) := by
      rw [hprobs1, List.getElem?_append_left hn]
      exact hget
    have hl : (allocIfNew numClasses cloudId poss s).test_labels[cloudId]? =
        some (s.test_labels.getD cloudId []) := by
      rw [hlabels1, List.getElem?_append_left (by omega)]
      exact hgetl
    rw [hun, writeBuffers_some upd cloudId _ _ _ hp hl, Option.some_bind,
      completeIfCovered_not_covered projInds split poss _ hcond]
    simp only [Option.map_some', Option.some_inj, Prod.mk.injEq]
    refine ⟨by simp [hprobs1], ?_, ?_⟩
    · -- the freshly appended slot at position n is untouched zeros
      rw [List.getD_eq_getElem?_getD,
        List.getElem?_set_ne (by omega), hprobs1]
      rw [show s.test_probs.length =
        (s.test_probs ++
          [List.replicate poss.length (List.replicate numClasses 0)]).length - 1
        by simp]
      simp
    · -- the stale id overwrote the old buffer at position cloudId
      rw [List.getD_eq_getElem?_getD, List.getElem?_set_eq_of_lt]
      · rfl
      · rw [hprobs1, List.length_append]
        simp
        omega

/-- **C10** witness: state tracking cloud 1 with two buffers
(`n = 2`).  A stale id 0 succeeds but leaves the appended third buffer as
zeros while overwriting buffer 0; id 3 raises; the sequential id 2 writes
the appended buffer. -/
theorem c10_raw_id_indexing_witness :
    (update_tests 1 (fun _ _ => ([[7]], [5])) none ("train") 0
        [[mkRat 1 4], [mkRat 1 4], [mkRat 1 4], [mkRat 1 4]]
        (AggState.mk 1 [[[3]], [[4]]] [[0], [0]] [] [] false)).map
        (fun t => (t.test_probs.length, t.test_probs.getD 2 [],
          t.test_probs.getD 0 [])) =
      some (3, [[0]], [[7]]) ∧
    update_tests 1 (fun _ _ => ([[7]], [5])) none ("train") 3
        [[mkRat 1 4], [mkRat 1 4], [mkRat 1 4], [mkRat 1 4]]
        (AggState.mk 1 [[[3]], [[4]]] [[0], [0]] [] [] false) = none ∧
    (update_tests 1 (fun _ _ => ([[7]], [5])) none ("train") 2
        [[mkRat 1 4], [mkRat 1 4], [mkRat 1 4], [mkRat 1 4]]
        (AggState.mk 1 [[[3]], [[4]]] [[0], [0]] [] [] false)).map
        (fun t => (t.curr_cloud_id, t.test_probs.length,
          t.test_probs.getD 2 [])) =
      some (2, 3, [[7]]) := by
  have h0 := c10_raw_id_indexing 1 (fun _ _ => ([[7]], [5])) none ("train") 0
    [[mkRat 1 4], [mkRat 1 4], [mkRat 1 4], [mkRat 1 4]]
    (AggState.mk 1 [[[3]], [[4]]] [[0], [0]] [] [] false) [mkRat 1 4]
    (by decide) (by decide) (by decide) (by decide)
  have h3 := c10_raw_id_indexing 1 (fun _ _ => ([[7]], [5])) none ("train") 3
    [[mkRat 1 4], [mkRat 1 4], [mkRat 1 4], [mkRat 1 4]]
    (AggState.mk 1 [[[3]], [[4]]] [[0], [0]] [] [] false) [mkRat 1 4]
    (by decide) (by decide) (by decide) (by decide)
  have h2 := c10_raw_id_indexing 1 (fun _ _ => ([[7]], [5])) none ("train") 2
    [[mkRat 1 4], [mkRat 1 4], [mkRat 1 4], [mkRat 1 4]]
    (AggState.mk 1 [[[3]], [[4]]] [[0], [0]] [] [] false) [mkRat 1 4]
    (by decide) (by decide) (by decide) (by decide)
  exact ⟨h0.2.2 (by decide), h3.2.1 (by decide), h2.1 (by decide)⟩

/-- **C6**: in the training loop, a batch whose per-head prediction score
tensor has last dimension 0 is skipped right after the forward pass and the
loss computation: no backward pass, no gradient clipping, no optimizer
step, no metric update, and no loss appended; the fold over the remaining
batches continues (the loop body is total — nothing is raised). -/
theorem c6_degenerate_batch_skipped (gradClip : Bool) (st : TrainLoopState)
    (b : TrainBatch) (rest : List TrainBatch) (h0 : b.scoresLastDim = 0) :
    (trainBatchStep gradClip st b).backwardCount = st.backwardCount ∧
    (trainBatchStep gradClip st b).clipCount = st.clipCount ∧
    (trainBatchStep gradClip st b).optimStepCount = st.optimStepCount ∧
    (trainBatchStep gradClip st b).metricUpdateCount = st.metricUpdateCount ∧
    (trainBatchStep gradClip st b).losses = st.losses ∧
    (trainBatchStep gradClip st b).forwardCount = st.forwardCount + 1 ∧
    runTrainEpoch gradClip st (b :: rest) =
      runTrainEpoch gradClip (trainBatchStep gradClip st b) rest := by
  refine ⟨?_, ?_, ?_, ?_, ?_, ?_, rfl⟩ <;>
    (unfold trainBatchStep; rw [if_pos h0])

/-- **C6** witness: a degenerate batch (`scoresLastDim = 0`) on head 1 with
clipping enabled leaves every gradient/metric/loss effect untouched while
the loop proceeds to the following normal batch. -/
theorem c6_degenerate_batch_skipped_witness :
    (trainBatchStep true (TrainLoopState.mk 4 4 3 3 3 [2, 1] [[1], [2]])
      (TrainBatch.mk 1 0 9)).backwardCount =
      (TrainLoopState.mk 4 4 3 3 3 [2, 1] [[1], [2]]).backwardCount ∧
    (trainBatchStep true (TrainLoopState.mk 4 4 3 3 3 [2, 1] [[1], [2]])
      (TrainBatch.mk 1 0 9)).clipCount =
      (TrainLoopState.mk 4 4 3 3 3 [2, 1] [[1], [2]]).clipCount ∧
    (trainBatchStep true (TrainLoopState.mk 4 4 3 3 3 [2, 1] [[1], [2]])
      (TrainBatch.mk 1 0 9)).optimStepCount =
      (TrainLoopState.mk 4 4 3 3 3 [2, 1] [[1], [2]]).optimStepCount ∧
    (trainBatchStep true (TrainLoopState.mk 4 4 3 3 3 [2, 1] [[1], [2]])
      (TrainBatch.mk 1 0 9)).metricUpdateCount =
      (TrainLoopState.mk 4 4 3 3 3 [2, 1] [[1], [2]]).metricUpdateCount ∧
    (trainBatchStep true (TrainLoopState.mk 4 4 3 3 3 [2, 1] [[1], [2]])
      (TrainBatch.mk 1 0 9)).losses =
      (TrainLoopState.mk 4 4 3 3 3 [2, 1] [[1], [2]]).losses ∧
    (trainBatchStep true (TrainLoopState.mk 4 4 3 3 3 [2, 1] [[1], [2]])
      (TrainBatch.mk 1 0 9)).forwardCount =
      (TrainLoopState.mk 4 4 3 3 3 [2, 1] [[1], [2]]).forwardCount + 1 ∧
    runTrainEpoch true (TrainLoopState.mk 4 4 3 3 3 [2, 1] [[1], [2]])
        (TrainBatch.mk 1 0 9 :: [TrainBatch.mk 0 5 2]) =
      runTrainEpoch true
        (trainBatchStep true (TrainLoopState.mk 4 4 3 3 3 [2, 1] [[1], [2]])
          (TrainBatch.mk 1 0 9)) [TrainBatch.mk 0 5 2] :=
  c6_degenerate_batch_skipped true (TrainLoopState.mk 4 4 3 3 3 [2, 1] [[1], [2]])
    (TrainBatch.mk 1 0 9) [TrainBatch.mk 0 5 2] (by decide)

/-- **C8**: if distributed training is requested while `train_sampler` or
`valid_sampler` holds a non-`None` value at the point of the check in
`run_train`, setup raises `NotImplementedError` immediately — the returned
error carries no `SetupDone` value, so no data loader is built and no
training batch is processed.  (In the current source both locals are
assigned `None` a few lines earlier, so the guard is latent; the theorem
quantifies over the sampler values at the check.) -/
theorem c8_distributed_sampler_guard (tSamp vSamp : Option Unit)
    (h : tSamp ≠ none ∨ vSamp ≠ none) :
    runTrainSetup true tSamp vSamp =
      Except.error ("Distributed training with sampler is not supported yet!") := by
  unfold runTrainSetup
  rw [if_pos rfl, if_pos h]

/-- **C8** witness: an externally supplied train sampler plus distributed
mode yields the `NotImplementedError` immediately. -/
theorem c8_distributed_sampler_guard_witness :
    runTrainSetup true (some ()) none =
      Except.error ("Distributed training with sampler is not supported yet!") :=
  c8_distributed_sampler_guard (some ()) none (Or.inl (by decide))

/-- **C9**: `run_inference` returns the raw model output of the first batch
unconditionally from inside its loop: the result equals
`batches.head?.map (raw ∘ model)` — so the inference result is never the
`finalized` aggregation (the post-loop `{'predict_labels', 'predict_scores'}`
construction is unreachable, and on an empty loader the `pop()` on the
still-empty buffers raises, giving `none`) — and the result does not depend
on the `update_tests` effect at all, because the call written after
`return results` is dead code. -/
theorem c9_early_return {α β : Type} (modelF : α → β)
    (updF updF' : α → β → AggState → AggState) (batches : List α) :
    run_inference modelF updF batches =
      batches.head?.map (fun b => InferResult.raw (modelF b)) ∧
    run_inference modelF updF batches = run_inference modelF updF' batches := by
  have hmain : ∀ (u : α → β → AggState → AggState),
      run_inference modelF u batches =
        batches.head?.map (fun b => InferResult.raw (modelF b)) := by
    intro u
    match batches with
    | [] => rfl
    | b :: rest => rfl
  exact ⟨hmain updF, (hmain updF).trans (hmain updF').symm⟩

end MultiHead
